import Mathlib

/-!
# A verification development for the `papers` repository

This file gives a shallow embedding, in Lean 4, of the core of the `papers`
paper-management program, and proves properties of that embedding.

Modelling conventions:
* `chrono::NaiveDateTime` values are modelled as `Int`, counting seconds
  (the program truncates timestamps to second resolution in `now_naive`).
* `chrono::Duration::num_days` divides the number of seconds by 86400,
  truncating toward zero; this is `Int.tdiv`.
* Rust strings are modelled as `List Char`; `str::replace(chars, "")` on a
  character class is character filtering.
* Filesystem paths handed to `std::fs::canonicalize` are modelled by their
  canonical component lists (`List (List Char)`); canonicalization itself is
  an OS call, so models take the canonical form as input.
* Fallible Rust functions returning `anyhow::Result` are modelled with
  `Except`.
-/

namespace Papers

/-- Seconds per day, the unit used by `chrono::Days`. -/
def secondsPerDay : Int := 86400

/-- Model of `chrono::Duration::num_days` applied to the difference `a - b`
of two second-resolution timestamps: whole days, truncated toward zero
(`Int.tdiv` is T-division, matching Rust/chrono). -/
def daysBetween (a b : Int) : Int :=
  Int.tdiv (a - b) secondsPerDay

/-- Model of adding `chrono::Days::new(d)` to a timestamp. -/
def addDays (t : Int) (d : Nat) : Int :=
  t + secondsPerDay * (d : Int)

/-- The `PaperMeta` record of the flat-file model (crates/papers-core,
final iteration): title, url, document filename, tags, labels, authors,
timestamps and the spaced-repetition state.  The rename strategy of
`rename_files.rs` treats the title as optional (`missing title` is a
reportable failure), so `title` is an `Option` here. -/
structure PaperMeta where
  title : Option (List Char)
  url : Option (List Char)
  filename : Option (List Char)
  tags : List (List Char)
  labels : List (List Char × List Char)
  authors : List (List Char)
  created_at : Int
  modified_at : Int
  last_review : Option Int
  next_review : Option Int
deriving DecidableEq

/-! ## Review scheduler (crates/papers-core/src/review.rs) -/

/-- The `wait_days` computation inside
`PaperMeta::calculate_next_review_date` (review.rs lines 10-22).
`days_since_last` is `(next - last).num_days()`.  The source computes
`(days_since_last as f64).powf(2.0).floor() as u64`; for an integer base
this is the integer square, which is how it is modelled here. -/
def waitDays (last next : Option Int) : Nat :=
  match last, next with
  | none, none => 1
  | none, some _ => 1
  | some _, none => 1
  | some l, some n =>
    let daysSinceLast := daysBetween n l
    if 1 < daysSinceLast then daysSinceLast.toNat ^ 2 else 2

/-- `PaperMeta::calculate_next_review_date` (review.rs lines 8-24):
`now + Days::new(wait_days)`.  The call to `now_naive()` is modelled by
taking `now` as a parameter. -/
def calculateNextReviewDate (now : Int) (m : PaperMeta) : Int :=
  addDays now (waitDays m.last_review m.next_review)

/-- `PaperMeta::update_review` (review.rs lines 26-30): shift
`next_review` into `last_review` and store the newly computed date. -/
def updateReview (now : Int) (m : PaperMeta) : PaperMeta :=
  { m with
    last_review := m.next_review
    next_review := some (calculateNextReviewDate now m) }

/-- `PaperMeta::is_reviewable` (review.rs lines 32-36): reviewable iff
`next_review` is unset or strictly in the past. -/
def isReviewable (now : Int) (m : PaperMeta) : Bool :=
  match m.next_review with
  | none => true
  | some r => decide (r < now)

/-- The specification's wording of the wait computation (spec section 4.4):
1 when both review fields are unset, 1 when exactly one is set, and when
both are set, `gap = days_between(next_review, last_review)` with
`floor(gap ^ 2.0)` for `gap > 1` and `2` otherwise. -/
def specWaitDays (last next : Option Int) : Nat :=
  if last = none ∧ next = none then 1
  else if (last = none) ≠ (next = none) then 1
  else
    match last, next with
    | some l, some n =>
      let gap := daysBetween n l
      if 1 < gap then gap.toNat ^ 2 else 2
    | _, _ => 1

/-- The specification's wording of `update_review` (spec section 4.4):
`new_next = now + wait_days days`; `last_review := old next_review`;
`next_review := new_next`. -/
def specUpdateReview (now : Int) (m : PaperMeta) : PaperMeta :=
  { m with
    last_review := m.next_review
    next_review := some (addDays now (specWaitDays m.last_review m.next_review)) }

end Papers

namespace Papers

/-- C1: `update_review` computes `wait_days` from `(last_review, next_review)`
exactly as the specification states — 1 when both are unset, 1 when exactly
one is set, and for both set, with `gap = days_between(next_review,
last_review)`, `floor(gap ^ 2.0)` when `gap > 1` and 2 otherwise — then sets
`next_review` to `now + wait_days` days and `last_review` to the old
`next_review`, for every `PaperMeta` and every current time `now`. -/
theorem update_review_matches_spec (now : Int) (m : PaperMeta) :
    updateReview now m = specUpdateReview now m := by
  unfold updateReview specUpdateReview calculateNextReviewDate waitDays specWaitDays
  rcases hl : m.last_review with _ | l <;> rcases hn : m.next_review with _ | n <;> simp

/-- C10: immediately after any `update_review` call at time `now`,
`next_review` is `some` value lying at least one whole day after `now`,
and `is_reviewable` evaluated at that same instant returns `false`:
a just-reviewed paper is never immediately reviewable again. -/
theorem update_review_not_immediately_reviewable (now : Int) (m : PaperMeta) :
    ∃ t, (updateReview now m).next_review = some t ∧
      now + secondsPerDay ≤ t ∧
      isReviewable now (updateReview now m) = false := by
  refine ⟨calculateNextReviewDate now m, rfl, ?_, ?_⟩
  · have hw : 1 ≤ waitDays m.last_review m.next_review := by
      unfold waitDays
      rcases m.last_review with _ | l <;> rcases m.next_review with _ | n <;> simp
      split
      · have h2 : (2 : Nat) ≤ (daysBetween n l).toNat := by omega
        calc (1 : Nat) ≤ 2 ^ 2 := by norm_num
        _ ≤ (daysBetween n l).toNat ^ 2 := Nat.pow_le_pow_left h2 2
        _ = (daysBetween n l).toNat ^ 2 := rfl
      · omega
    unfold calculateNextReviewDate addDays
    have : (1 : Int) ≤ (waitDays m.last_review m.next_review : Int) := by
      exact_mod_cast hw
    have hpos : (0 : Int) < secondsPerDay := by norm_num [secondsPerDay]
    nlinarith
  · unfold isReviewable updateReview
    simp only []
    have : now < calculateNextReviewDate now m := by
      unfold calculateNextReviewDate addDays
      have hw : 1 ≤ waitDays m.last_review m.next_review := by
        unfold waitDays
        rcases m.last_review with _ | l <;> rcases m.next_review with _ | n <;> simp
        split
        · have h2 : (2 : Nat) ≤ (daysBetween n l).toNat := by omega
          calc (1 : Nat) ≤ 2 ^ 2 := by norm_num
          _ ≤ (daysBetween n l).toNat ^ 2 := Nat.pow_le_pow_left h2 2
        · omega
      have : (1 : Int) ≤ (waitDays m.last_review m.next_review : Int) := by
        exact_mod_cast hw
      have hpos : (0 : Int) < secondsPerDay := by norm_num [secondsPerDay]
      nlinarith
    simp [this, not_lt.mpr (le_of_lt this)]

/-! ## Repeated immediate reviews (claim C8)

`Review` in the CLI calls `update_review` once per review session; repeating
the session without letting time pass iterates `updateReview` at a fixed
`now`. -/

/-- Iterating `update_review` at a fixed current time. -/
def reviewIter (now : Int) (m : PaperMeta) : Nat → PaperMeta
  | 0 => m
  | k + 1 => updateReview now (reviewIter now m k)

lemma updateReview_review_fields (now : Int) (x : PaperMeta) :
    (updateReview now x).last_review = x.next_review ∧
    (updateReview now x).next_review =
      some (addDays now (waitDays x.last_review x.next_review)) := by
  constructor <;> rfl

lemma reviewIter_state_one (now : Int) (m : PaperMeta)
    (h1 : m.last_review = none) (h2 : m.next_review = none) :
    (reviewIter now m 1).last_review = none ∧
    (reviewIter now m 1).next_review = some (now + 86400) := by
  simp [reviewIter, updateReview, calculateNextReviewDate, waitDays, addDays,
    secondsPerDay, h1, h2]

lemma reviewIter_state_two (now : Int) (m : PaperMeta)
    (h1 : m.last_review = none) (h2 : m.next_review = none) :
    (reviewIter now m 2).last_review = some (now + 86400) ∧
    (reviewIter now m 2).next_review = some (now + 86400) := by
  obtain ⟨g1, g2⟩ := reviewIter_state_one now m h1 h2
  have : reviewIter now m 2 = updateReview now (reviewIter now m 1) := rfl
  rw [this]
  unfold updateReview calculateNextReviewDate
  rw [g1, g2]
  simp [waitDays, addDays, secondsPerDay]

lemma reviewIter_state_three (now : Int) (m : PaperMeta)
    (h1 : m.last_review = none) (h2 : m.next_review = none) :
    (reviewIter now m 3).last_review = some (now + 86400) ∧
    (reviewIter now m 3).next_review = some (now + 172800) := by
  obtain ⟨g1, g2⟩ := reviewIter_state_two now m h1 h2
  have : reviewIter now m 3 = updateReview now (reviewIter now m 2) := rfl
  rw [this]
  unfold updateReview calculateNextReviewDate
  rw [g1, g2]
  have hd : daysBetween (now + 86400) (now + 86400) = 0 := by
    simp [daysBetween]
  simp [waitDays, hd, addDays, secondsPerDay]

lemma reviewIter_state_ge_four (now : Int) (m : PaperMeta)
    (h1 : m.last_review = none) (h2 : m.next_review = none) :
    ∀ k, (reviewIter now m (4 + k)).last_review = some (now + 172800) ∧
      (reviewIter now m (4 + k)).next_review = some (now + 172800) := by
  have hd1 : daysBetween (now + 172800) (now + 86400) = 1 := by
    have he : now + 172800 - (now + 86400) = 86400 := by ring
    rw [daysBetween, he]
    decide
  have hd0 : daysBetween (now + 172800) (now + 172800) = 0 := by
    simp [daysBetween]
  intro k
  induction k with
  | zero =>
    obtain ⟨g1, g2⟩ := reviewIter_state_three now m h1 h2
    have : reviewIter now m 4 = updateReview now (reviewIter now m 3) := rfl
    rw [show (4 : Nat) + 0 = 4 from rfl, this]
    unfold updateReview calculateNextReviewDate
    rw [g1, g2]
    simp [waitDays, hd1, addDays, secondsPerDay]
  | succ k ih =>
    obtain ⟨g1, g2⟩ := ih
    have : reviewIter now m (4 + (k + 1)) = updateReview now (reviewIter now m (4 + k)) := rfl
    rw [this]
    unfold updateReview calculateNextReviewDate
    rw [g1, g2]
    simp [waitDays, hd0, addDays, secondsPerDay]

/-- C8: starting from `last_review = next_review = None`, one
`update_review` call at time `now` yields `next_review = now + 1 day`, and
every immediately repeated call (same `now`) yields a `next_review` no
earlier than the previous call's: the scheduled interval never shrinks
under repeated immediate reviews. -/
theorem review_interval_never_shrinks (now : Int) (m : PaperMeta)
    (h1 : m.last_review = none) (h2 : m.next_review = none)
    (k : Nat) (hk : 1 ≤ k) :
    (reviewIter now m 1).next_review = some (now + secondsPerDay) ∧
    ∃ a b, (reviewIter now m k).next_review = some a ∧
      (reviewIter now m (k + 1)).next_review = some b ∧ a ≤ b := by
  refine ⟨(reviewIter_state_one now m h1 h2).2, ?_⟩
  match k, hk with
  | 1, _ =>
    exact ⟨now + 86400, now + 86400, (reviewIter_state_one now m h1 h2).2,
      (reviewIter_state_two now m h1 h2).2, le_refl _⟩
  | 2, _ =>
    exact ⟨now + 86400, now + 172800, (reviewIter_state_two now m h1 h2).2,
      (reviewIter_state_three now m h1 h2).2, by omega⟩
  | 3, _ =>
    exact ⟨now + 172800, now + 172800, (reviewIter_state_three now m h1 h2).2,
      ((reviewIter_state_ge_four now m h1 h2 0).2 : _), le_refl _⟩
  | (n + 4), _ =>
    refine ⟨now + 172800, now + 172800, ?_, ?_, le_refl _⟩
    · rw [show n + 4 = 4 + n by omega]
      exact (reviewIter_state_ge_four now m h1 h2 n).2
    · rw [show n + 4 + 1 = 4 + (n + 1) by omega]
      exact (reviewIter_state_ge_four now m h1 h2 (n + 1)).2

/-- A concrete, never-reviewed `PaperMeta` record. -/
def emptyMeta : PaperMeta :=
  ⟨none, none, none, [], [], [], 0, 0, none, none⟩

/-- Witness for C8 at `now = 0`, `k = 1`, on a concrete all-empty record. -/
theorem review_interval_never_shrinks_witness :
    emptyMeta.last_review = none ∧ emptyMeta.next_review = none ∧
    (1 : Nat) ≤ 1 ∧
    ((reviewIter 0 emptyMeta 1).next_review = some (0 + secondsPerDay) ∧
    ∃ a b, (reviewIter 0 emptyMeta 1).next_review = some a ∧
      (reviewIter 0 emptyMeta (1 + 1)).next_review = some b ∧ a ≤ b) :=
  ⟨rfl, rfl, by decide,
    review_interval_never_shrinks 0 emptyMeta rfl rfl 1 (by decide)⟩

/-! ## Canonical name derivation (crates/papers-cli-lib/src/rename_files.rs) -/

/-- `PROHIBITED_CHARS` (rename_files.rs line 12). -/
def prohibitedChars : List Char :=
  ['/', '\\', '?', '%', '*', ':', '|', '"', '<', '>', '.']

/-- `n.replace(PROHIBITED_CHARS, "")` (rename_files.rs line 28):
`str::replace` with a character-class pattern and an empty replacement
deletes, left to right, each occurrence of any character of the class. -/
def replaceProhibited : List Char → List Char
  | [] => []
  | c :: rest =>
    if c ∈ prohibitedChars then replaceProhibited rest
    else c :: replaceProhibited rest

/-- `Strategy::rename` with the `Title` strategy (rename_files.rs lines
16-29): the title with the prohibited characters removed, or an error when
the title is missing.  (The older iteration's `Id` strategy has no
counterpart on the flat-file `PaperMeta`, which carries no numeric id.) -/
def strategyRenameTitle (m : PaperMeta) : Except (List Char) (List Char) :=
  match m.title with
  | some t => .ok (replaceProhibited t)
  | none => .error ("missing title".data)

/-- The note path derived from a title: the sanitized base name with the
`.md` extension appended (cli.rs line 460, `with_extension("md")`; since
the sanitized name contains no dot, `with_extension` purely appends).
The spec calls this function `get_path`. -/
def getPath (title : List Char) : List Char :=
  replaceProhibited title ++ ".md".data

lemma replaceProhibited_eq_filter (t : List Char) :
    replaceProhibited t = t.filter (fun c => decide (c ∉ prohibitedChars)) := by
  induction t with
  | nil => rfl
  | cons c rest ih =>
    by_cases h : c ∈ prohibitedChars <;>
      simp [replaceProhibited, List.filter, h, ih]

/-- C3: deriving a paper's canonical base name removes exactly every
occurrence of the characters in `{ / \\ ? % * : | " < > . }` and nothing
else (the result is precisely the subsequence of characters outside the
prohibited set); in particular the title `"Other/Title:1"` derives base
name `"OtherTitle1"` and note path `"OtherTitle1.md"`, with no extension
duplication since no dot survives sanitization. -/
theorem rename_strips_exactly_prohibited (t : List Char) :
    replaceProhibited t = t.filter (fun c => decide (c ∉ prohibitedChars)) ∧
    (∀ c ∈ replaceProhibited t, c ∉ prohibitedChars) ∧
    strategyRenameTitle
        ⟨some ("Other/Title:1".data), none, none, [], [], [], 0, 0, none, none⟩ =
      .ok ("OtherTitle1".data) ∧
    getPath ("Other/Title:1".data) = "OtherTitle1.md".data := by
  refine ⟨replaceProhibited_eq_filter t, ?_, rfl, rfl⟩
  intro c hc
  rw [replaceProhibited_eq_filter] at hc
  have := List.mem_filter.mp hc
  simpa using this.2

/-! ## Document paths must live under the repository root
(crates/papers-core/src/repo.rs)

`std::fs::canonicalize` is an OS call; its result is modelled as the
canonical component list `c` of the given file. -/

/-- `Repo::add`'s filename handling (repo.rs lines 86-95): strip the root
prefix from the canonicalized file, storing the root-relative remainder,
or fail with `File does not live in the root`. -/
def addFilename (root : List (List Char)) :
    Option (List (List Char)) → Except (List Char) (Option (List (List Char)))
  | none => .ok none
  | some c =>
    if List.isPrefixOf root c then .ok (some (c.drop root.length))
    else .error ("File does not live in the root".data)

/-- `Repo::update`'s filename handling (repo.rs lines 213-229): the
canonicalized file's parent (`dropLast`) must start with the root, and only
the file name (last component) is stored; otherwise fail with
`File doesn't live in the root`.  (`file_name().unwrap()` is modelled by
`getLastD`; a canonicalized file path always has a final component.) -/
def updateFilename (root : List (List Char)) :
    Option (List (List Char)) → Except (List Char) (Option (List Char))
  | none => .ok none
  | some c =>
    if List.isPrefixOf root c.dropLast then .ok (some (c.getLastD []))
    else .error ("File doesn't live in the root".data)

/-- C7: for every document file path passed to `add` or `update`, the path
is canonicalized and rejected with an error when it does not resolve to a
location inside the repository root; only paths under the root are accepted,
`add` storing the root-relative remainder and `update` requiring the parent
directory to lie under the root (which still forces the file itself to lie
under the root). -/
theorem document_paths_outside_root_rejected (root c : List (List Char)) :
    ((addFilename root (some c)).isOk = true ↔ root <+: c) ∧
    (addFilename root (some c) = .ok (some (c.drop root.length)) ∨
      (addFilename root (some c)).isOk = false) ∧
    ((updateFilename root (some c)).isOk = true ↔ root <+: c.dropLast) ∧
    ((updateFilename root (some c)).isOk = false ∨ root <+: c) := by
  have hiffA : List.isPrefixOf root c = true ↔ root <+: c :=
    List.isPrefixOf_iff_prefix
  have hiffU : List.isPrefixOf root c.dropLast = true ↔ root <+: c.dropLast :=
    List.isPrefixOf_iff_prefix
  refine ⟨?_, ?_, ?_, ?_⟩
  · simp only [addFilename]
    split
    next h => simpa [Except.isOk, Except.toBool] using hiffA.mp h
    next h =>
      simp only [Except.isOk, Except.toBool, Bool.false_eq_true, false_iff]
      exact fun hp => h (hiffA.mpr hp)
  · simp only [addFilename]
    split
    next => exact Or.inl rfl
    next => exact Or.inr rfl
  · simp only [updateFilename]
    split
    next h => simpa [Except.isOk, Except.toBool] using hiffU.mp h
    next h =>
      simp only [Except.isOk, Except.toBool, Bool.false_eq_true, false_iff]
      exact fun hp => h (hiffU.mpr hp)
  · simp only [updateFilename]
    split
    next h => exact Or.inr ((hiffU.mp h).trans (List.dropLast_prefix c))
    next => exact Or.inl rfl

/-! ## Listing with filters (crates/papers-core/src/repo.rs, `Repo::list`) -/

/-- Model of `str::to_lowercase` (ASCII fragment, via `Char.toLower`). -/
def toLowerL (s : List Char) : List Char := s.map Char.toLower

/-- Model of `str::contains(&str)`: substring search, scanning left to
right for a position where the needle is a prefix of the remaining hay. -/
def containsSub : List Char → List Char → Bool
  | hay, needle =>
    if List.isPrefixOf needle hay then true
    else
      match hay with
      | [] => false
      | _ :: t => containsSub t needle

lemma containsSub_correct (hay needle : List Char) :
    containsSub hay needle = true ↔ needle <:+: hay := by
  induction hay with
  | nil =>
    rw [containsSub]
    by_cases h : List.isPrefixOf needle ([] : List Char)
    · have := List.isPrefixOf_iff_prefix.mp h
      simp_all [List.infix_nil, List.prefix_nil]
    · have : ¬ needle <+: ([] : List Char) := fun hp =>
        h (List.isPrefixOf_iff_prefix.mpr hp)
      simp_all [List.infix_nil, List.prefix_nil]
  | cons c t ih =>
    rw [containsSub]
    by_cases h : List.isPrefixOf needle (c :: t)
    · simp [h, (List.isPrefixOf_iff_prefix.mp h).isInfix]
    · have hnp : ¬ needle <+: (c :: t) := fun hp =>
        h (List.isPrefixOf_iff_prefix.mpr hp)
      simp [h, ih, List.infix_cons_iff, hnp]

/-- The paper record assembled by `Repo::list` (repo.rs lines 479-578):
the database paper row together with its authors, tags, labels and note. -/
structure DbPaper where
  id : Int
  url : Option (List Char)
  filename : Option (List Char)
  title : Option (List Char)
  deleted : Bool
  created_at : Int
  modified_at : Int
  authors : List (List Char)
  tags : List (List Char)
  labels : List (List Char × List Char)
  notes : Option (List Char)
deriving DecidableEq

/-- `Repo::list` (repo.rs lines 479-578) as a pure filter over the stored
papers.  The source lowercases the requested title/file strings once, then
skips (`continue`) a paper when it is deleted (unless requested), when an
id filter is present and does not contain its id, when a requested
file/title substring does not occur case-insensitively in its
filename/title (a missing filename/title also skips), or when any requested
author, tag or label is not contained in the paper's respective set. -/
def listPapers (matchIds : List Int) (matchFile matchTitle : Option (List Char))
    (matchAuthors matchTags : List (List Char))
    (matchLabels : List (List Char × List Char))
    (includeDeleted : Bool) (papers : List DbPaper) : List DbPaper :=
  let mf := matchFile.map toLowerL
  let mt := matchTitle.map toLowerL
  papers.filter fun p =>
    (includeDeleted || !p.deleted) &&
    (matchIds.isEmpty || matchIds.contains p.id) &&
    (match mf with
     | none => true
     | some m =>
       match p.filename with
       | none => false
       | some f => containsSub (toLowerL f) m) &&
    (match mt with
     | none => true
     | some m =>
       match p.title with
       | none => false
       | some ti => containsSub (toLowerL ti) m) &&
    matchAuthors.all (fun a => p.authors.contains a) &&
    matchTags.all (fun tg => p.tags.contains tg) &&
    matchLabels.all (fun l => p.labels.contains l)

/-- C4: `list` returns exactly the papers that satisfy every requested
filter conjointly — case-insensitive substring match of the requested
strings against filename and title, and set containment for every requested
author, tag and label (a paper passes only when its sets contain all
requested values; missing any one excludes it) — and with no filters all
non-excluded (non-deleted) papers are returned. -/
theorem list_filters_conjunctively (matchIds : List Int)
    (matchFile matchTitle : Option (List Char))
    (matchAuthors matchTags : List (List Char))
    (matchLabels : List (List Char × List Char))
    (includeDeleted : Bool) (papers : List DbPaper) (p : DbPaper) :
    (p ∈ listPapers matchIds matchFile matchTitle matchAuthors matchTags
        matchLabels includeDeleted papers ↔
      p ∈ papers ∧
      (includeDeleted = true ∨ p.deleted = false) ∧
      (matchIds = [] ∨ p.id ∈ matchIds) ∧
      (∀ m, matchFile = some m →
        ∃ f, p.filename = some f ∧ toLowerL m <:+: toLowerL f) ∧
      (∀ m, matchTitle = some m →
        ∃ ti, p.title = some ti ∧ toLowerL m <:+: toLowerL ti) ∧
      (∀ a ∈ matchAuthors, a ∈ p.authors) ∧
      (∀ tg ∈ matchTags, tg ∈ p.tags) ∧
      (∀ l ∈ matchLabels, l ∈ p.labels)) ∧
    listPapers [] none none [] [] [] false papers =
      papers.filter (fun q => !q.deleted) := by
  constructor
  · rw [listPapers, List.mem_filter]
    constructor
    · rintro ⟨hmem, hf⟩
      refine ⟨hmem, ?_⟩
      rcases matchFile with _ | ms <;> rcases matchTitle with _ | ts <;>
        rcases hfn : p.filename with _ | f <;> rcases hti : p.title with _ | ti <;>
        simp [hfn, hti, containsSub_correct, Bool.or_eq_true,
          List.isEmpty_iff, List.all_eq_true] at hf <;>
        simp_all [containsSub_correct]
    · rintro ⟨hmem, hdel, hids, hfile, htitle, hauth, htags, hlabs⟩
      refine ⟨hmem, ?_⟩
      rcases matchFile with _ | ms <;> rcases matchTitle with _ | ts <;>
        rcases hfn : p.filename with _ | f <;> rcases hti : p.title with _ | ti <;>
        simp_all [containsSub_correct, Bool.or_eq_true, List.isEmpty_iff,
          List.all_eq_true]
  · rw [listPapers]
    simp

/-! ## The flat-file store (final iteration of crates/papers-core/src/repo.rs)

The final, flat-file `Repo` is exercised by the CLI
(crates/papers-cli-lib/src/cli.rs) through `add`, `import`, `update`,
`get_paper`, `all_papers`, `write_paper` and `get_path`; its own module is
not part of the source tree snapshot, so the store operations below are
modelled from the specification. -/

/-- A note file: metadata plus the free-form notes body. -/
structure NoteFile where
  meta : PaperMeta
  notes : List Char
deriving DecidableEq

/-- The flat-file store content: the root's note files keyed by their
root-relative path. -/
abbrev RepoFs := List (List Char × NoteFile)

/-- The store's error kinds for creation (spec section 7). -/
inductive RepoError
  | outsideRoot
  | alreadyExists
deriving DecidableEq

/-- Components joined into a textual relative path. -/
def joinComponents (ps : List (List Char)) : List Char :=
  List.intercalate ['/'] ps

/-- The expected note path of a record (`get_path(meta)`): derived from the
title (spec sections 3 and 4.2; the title is required, so a missing one is
read as empty here). -/
def getPathOfMeta (m : PaperMeta) : List Char :=
  getPath (m.title.getD [])

/-- Modelled from the spec: `Repo::add` of the final flat-file iteration of
crates/papers-core/src/repo.rs, which is not in the source tree (only the
DB-backed earlier iteration and the CLI caller are).  Spec section 4.3: if
a file is given, canonicalize it and verify it lives under root (else
`OutsideRoot`), storing the root-relative path; compute the expected note
path from the title; if a note already exists there, fail with
`AlreadyExists`; otherwise construct the record with
`created_at = modified_at = now` and write the note file with an empty
notes body. -/
def repoAdd (root : List (List Char)) (fs : RepoFs)
    (file : Option (List (List Char))) (url : Option (List Char))
    (title : List Char) (authors : List (List Char))
    (tags : List (List Char)) (labels : List (List Char × List Char))
    (now : Int) : Except RepoError (RepoFs × PaperMeta) :=
  match addFilename root file with
  | .error _ => .error .outsideRoot
  | .ok fname =>
    let path := getPath title
    match fs.lookup path with
    | some _ => .error .alreadyExists
    | none =>
      let m : PaperMeta :=
        { title := some title, url := url, filename := fname.map joinComponents
          tags := tags, labels := labels, authors := authors
          created_at := now, modified_at := now
          last_review := none, next_review := none }
      .ok ((path, ⟨m, []⟩) :: fs, m)

/-- C2: for any two `add` calls whose titles derive the same note path
(and whose other arguments pass the file-under-root validation, which
`add` checks before the collision check), the second call fails with
`AlreadyExists`, and the first paper's stored note file is left unmodified
by the failed second call — the error carries no new store state, and the
first note is still found at the derived path. -/
theorem add_twice_same_path_fails (root : List (List Char)) (fs fs1 : RepoFs)
    (f1 f2 : Option (List (List Char))) (u1 u2 : Option (List Char))
    (t1 t2 : List Char) (a1 a2 tg1 tg2 : List (List Char))
    (l1 l2 : List (List Char × List Char)) (now1 now2 : Int) (m1 : PaperMeta)
    (hpath : getPath t1 = getPath t2)
    (hf2 : (addFilename root f2).isOk = true)
    (h1 : repoAdd root fs f1 u1 t1 a1 tg1 l1 now1 = .ok (fs1, m1)) :
    repoAdd root fs1 f2 u2 t2 a2 tg2 l2 now2 = .error .alreadyExists ∧
    fs1.lookup (getPath t1) = some ⟨m1, []⟩ := by
  rw [repoAdd] at h1
  rcases hA : addFilename root f1 with e | fname
  · simp [hA] at h1
  · simp only [hA] at h1
    rcases hL : fs.lookup (getPath t1) with _ | nf
    · simp only [hL, Except.ok.injEq, Prod.mk.injEq] at h1
      obtain ⟨hfs1, hm1⟩ := h1
      have hlook : fs1.lookup (getPath t1) = some ⟨m1, []⟩ := by
        rw [← hfs1, ← hm1]
        simp [List.lookup]
      refine ⟨?_, hlook⟩
      rw [repoAdd]
      rcases hB : addFilename root f2 with e2 | fname2
      · rw [hB] at hf2
        simp [Except.isOk, Except.toBool] at hf2
      · simp only [hB, ← hpath, hlook]
    · simp [hL] at h1

/-- A concrete store resulting from adding title `"ab"` into an empty
repository at time 0. -/
def addedMetaAB : PaperMeta :=
  ⟨some ("ab".data), none, none, [], [], [], 0, 0, none, none⟩

/-- The store holding exactly the `"ab"` note. -/
def storeAB : RepoFs := [(getPath ("ab".data), ⟨addedMetaAB, []⟩)]

/-- Witness for C2: the distinct titles `"ab"` and `"a.b"` derive the same
note path `ab.md`; adding the first succeeds and then adding the second
fails with `AlreadyExists`, leaving the first note in place. -/
theorem add_twice_same_path_fails_witness :
    getPath ("ab".data) = getPath ("a.b".data) ∧
    (addFilename [] none).isOk = true ∧
    repoAdd [] [] none none ("ab".data) [] [] [] 0 = .ok (storeAB, addedMetaAB) ∧
    (repoAdd [] storeAB none none ("a.b".data) [] [] [] 0 =
        .error .alreadyExists ∧
      storeAB.lookup (getPath ("ab".data)) = some ⟨addedMetaAB, []⟩) :=
  ⟨rfl, rfl, rfl,
    add_twice_same_path_fails [] [] storeAB none none none none ("ab".data)
      ("a.b".data) [] [] [] [] [] [] 0 0 addedMetaAB rfl rfl rfl⟩

/-! ## Importing records (cli.rs `Import` and the store's `import`) -/

/-- Modelled from the spec: the final flat-file `Repo::import`
(spec sections 4.3 and 6): same as `add` but accepting a fully-formed
record without re-deriving timestamps; single-record, failing atomically
for that one record (here: on a note-path collision, leaving the store
untouched). -/
def repoImport (fs : RepoFs) (m : PaperMeta) : Except RepoError RepoFs :=
  match fs.lookup (getPathOfMeta m) with
  | some _ => .error .alreadyExists
  | none => .ok ((getPathOfMeta m, ⟨m, []⟩) :: fs)

/-- The `Import` subcommand's driving loop (cli.rs lines 554-572):
`for paper in papers { repo.import(paper)?; }` — the `?` operator
propagates a failure out of `execute`, ending the loop. -/
def importLoop (fs : RepoFs) : List PaperMeta → Except RepoError RepoFs
  | [] => .ok fs
  | p :: rest =>
    match repoImport fs p with
    | .error e => .error e
    | .ok fs2 => importLoop fs2 rest

/-- A record whose derived path collides with the `"ab"` note. -/
def collidingMeta : PaperMeta :=
  ⟨some ("ab".data), none, none, [], [], [], 1, 1, none, none⟩

/-- A record whose derived path (`cd.md`) is fresh for `storeAB`. -/
def freshMeta : PaperMeta :=
  ⟨some ("cd".data), none, none, [], [], [], 1, 1, none, none⟩

/-- Counterexample to C6: importing `[collidingMeta, freshMeta]` into a
store already holding the `ab.md` note fails on the first record, and the
driving loop propagates that failure instead of attempting the remaining
record — even though importing `freshMeta` alone would succeed.  This
contradicts the claim that a failure on one record does not prevent the
remaining records from being attempted. -/
theorem import_loop_abandons_rest_counterexample :
    (repoImport storeAB freshMeta).isOk = true ∧
    importLoop storeAB [collidingMeta, freshMeta] = .error .alreadyExists :=
  ⟨rfl, rfl⟩

/-- C6 (amended): a failure on one record stops the import: the CLI loop
propagates the first failing record's error and the records after it are
not attempted; each `import` call is single-record, and a failed call
returns no new store state. -/
theorem import_failure_stops_loop (fs : RepoFs) (p : PaperMeta)
    (rest : List PaperMeta) (e : RepoError)
    (h : repoImport fs p = .error e) :
    importLoop fs (p :: rest) = .error e := by
  simp [importLoop, h]

/-- Witness for the amended C6 at the concrete colliding input. -/
theorem import_failure_stops_loop_witness :
    repoImport storeAB collidingMeta = .error .alreadyExists ∧
    importLoop storeAB [collidingMeta, freshMeta] = .error .alreadyExists :=
  ⟨rfl, import_failure_stops_loop storeAB collidingMeta [freshMeta]
    .alreadyExists rfl⟩

/-! ## Textual path helpers for the reconciliation passes

The rename-files and doctor passes manipulate textual paths
(`Path::parent`, `Path::join`, `Path::extension`,
`Path::with_extension`).  These are modelled on `/`-separated character
lists. -/

/-- `Path::file_name`: the part after the last separator. -/
def fileNameOf (p : List Char) : List Char :=
  (p.reverse.takeWhile (fun c => c ≠ '/')).reverse

/-- `Path::parent` (as a string; empty when there is no separator). -/
def parentOf (p : List Char) : List Char :=
  ((p.reverse.dropWhile (fun c => c ≠ '/')).drop 1).reverse

/-- `Path::join` with a relative right-hand side. -/
def joinPath (dir name : List Char) : List Char :=
  if dir = [] then name else dir ++ '/' :: name

/-- `Path::extension().unwrap_or_default()`: the part of the file name
after its last dot; empty when the file name has no dot or only a leading
dot. -/
def extOf (p : List Char) : List Char :=
  let f := fileNameOf p
  let r := f.reverse.takeWhile (fun c => c ≠ '.')
  if r.length = f.length ∨ r.length + 1 = f.length then [] else r.reverse

/-- `Path::with_extension`: drop the current extension (when one exists)
and append the new one (when non-empty). -/
def withExtension (p e : List Char) : List Char :=
  let f := fileNameOf p
  let r := f.reverse.takeWhile (fun c => c ≠ '.')
  let stem :=
    if r.length = f.length ∨ r.length + 1 = f.length then p
    else p.take (p.length - r.length - 1)
  if e = [] then stem else stem ++ '.' :: e

/-! ## The rename-files pass (cli.rs lines 409-470)

The pass iterates over all loaded papers.  Filesystem content is modelled
as the list of existing file paths, threaded through the pass; events
record the printed reports and the performed operations. -/

/-- A loaded paper: the note file's current path, its metadata and notes. -/
structure LoadedPaper where
  path : List Char
  meta : PaperMeta
  notes : List Char
deriving DecidableEq

/-- Reports and operations of the rename-files pass. -/
inductive RenameEvent
  | genFailure
  | reportDocMove (src dst : List Char)
  | docMove (src dst : List Char)
  | docUpdate (dst : List Char)
  | reportNoteMove (src dst : List Char)
  | noteMove (src dst : List Char)
deriving DecidableEq

/-- The document-file block of the rename pass (cli.rs lines 445-454):
only when the computed path differs from the current one and the
destination does not exist is the move reported; the move and the `update`
repointing `filename` happen only when not a dry run. -/
def stepDoc (dryRun : Bool) (files : List (List Char)) (path newPath : List Char) :
    List (List Char) × List RenameEvent :=
  if newPath ≠ path then
    if ¬ files.contains newPath then
      if ¬ dryRun then
        ((files.erase path).concat newPath,
          [.reportDocMove path newPath, .docMove path newPath, .docUpdate newPath])
      else (files, [.reportDocMove path newPath])
    else (files, [])
  else (files, [])

/-- The note-file block of the rename pass (cli.rs lines 460-469): note the
checks run in the other order — destination existence first, then the
no-op comparison. -/
def stepNote (dryRun : Bool) (files : List (List Char)) (paperPath newPaperPath : List Char) :
    List (List Char) × List RenameEvent :=
  if ¬ files.contains newPaperPath then
    if paperPath ≠ newPaperPath then
      if ¬ dryRun then
        ((files.erase paperPath).concat newPaperPath,
          [.reportNoteMove paperPath newPaperPath, .noteMove paperPath newPaperPath])
      else (files, [.reportNoteMove paperPath newPaperPath])
    else (files, [])
  else (files, [])

/-- One paper's processing in the rename pass (cli.rs lines 415-469):
generate a name via the first succeeding strategy (`find_map`), reporting
a generation failure and skipping the paper when none succeeds; otherwise
process the document file (when one is named and exists) with the detected
extension (content sniffing `detect`, falling back to the current
extension), then the note file. -/
def stepPaper (strategies : List (PaperMeta → Except (List Char) (List Char)))
    (detect : List Char → Option (List Char)) (dryRun : Bool) (root : List Char)
    (files : List (List Char)) (paper : LoadedPaper) :
    List (List Char) × List RenameEvent :=
  match List.findSome? (fun s => (s paper.meta).toOption) strategies with
  | none => (files, [.genFailure])
  | some newName =>
    let docStep :=
      match paper.meta.filename with
      | none => (files, [])
      | some filename =>
        let path := joinPath root filename
        if files.contains path then
          let newExt := (detect path).getD (extOf path)
          let newPath := withExtension (joinPath (parentOf path) newName) newExt
          stepDoc dryRun files path newPath
        else (files, [])
    let noteStep :=
      stepNote dryRun docStep.1 (joinPath root paper.path)
        (withExtension (joinPath root newName) ("md".data))
    (noteStep.1, docStep.2 ++ noteStep.2)

/-- The rename-files pass over the list of loaded papers. -/
def renamePass (strategies : List (PaperMeta → Except (List Char) (List Char)))
    (detect : List Char → Option (List Char)) (dryRun : Bool) (root : List Char) :
    List (List Char) → List LoadedPaper → List (List Char) × List RenameEvent
  | files, [] => (files, [])
  | files, p :: rest =>
    let s := stepPaper strategies detect dryRun root files p
    let r := renamePass strategies detect dryRun root s.1 rest
    (r.1, s.2 ++ r.2)

/-! ## The doctor pass (cli.rs lines 573-659) -/

/-- A directory entry seen by doctor: a `.md` note file with its parse
result, or any other file.  Names are root-relative (the source compares
`path.strip_prefix(root)` against root-relative expected paths). -/
inductive FsEntry
  | md (name : List Char) (content : Except (List Char) (PaperMeta × List Char))
  | other (name : List Char)

/-- Reports and repairs of the doctor pass. -/
inductive DoctorEvent
  | noteWrongPath (current expected : List Char)
  | noteMoved (current expected : List Char)
  | docMissing (current filename : List Char)
  | docWrongPath (current expected : List Char)
  | docMoved (current expected : List Char)
  | unmatched (name : List Char)
deriving DecidableEq

/-- `other_files.insert(k, true)` on the accounting map. -/
def accSetTrue (m : List (List Char × Bool)) (k : List Char) :
    List (List Char × Bool) :=
  match m.lookup k with
  | some _ => m.map (fun kv => if kv.1 = k then (k, true) else kv)
  | none => m.concat (k, true)

/-- `other_files.entry(k).or_default()` on the accounting map. -/
def accEnsure (m : List (List Char × Bool)) (k : List Char) :
    List (List Char × Bool) :=
  match m.lookup k with
  | some _ => m
  | none => m.concat (k, false)

/-- The doctor loop (cli.rs lines 588-659).  For each `.md` file the paper
is loaded with `?`, so a parse failure aborts the whole pass; otherwise the
note path is compared with the expected one (reported, and moved when
fixing), then the named document file is checked for existence and for the
expected document path (reported, and moved plus `update`d when fixing) and
marked accounted; non-`.md` files become orphan candidates; at the end
every never-accounted candidate is reported as unmatched.  (The source's
accounting map is a `BTreeMap`; its sorted iteration order is modelled as
insertion order here, which claims do not depend on.) -/
def doctorGo (exs : List Char → Bool) (fix : Bool)
    (acc : List (List Char × Bool)) (evs : List DoctorEvent) :
    List FsEntry → Except (List Char) (List DoctorEvent)
  | [] => .ok (evs ++ (acc.filter (fun kv => !kv.2)).map (fun kv => .unmatched kv.1))
  | .other name :: rest => doctorGo exs fix (accEnsure acc name) evs rest
  | .md name content :: rest =>
    match content with
    | .error e => .error e
    | .ok (meta, _) =>
      let expected := getPathOfMeta meta
      let evPath :=
        if expected ≠ name then
          .noteWrongPath name expected ::
            (if fix then [.noteMoved name expected] else [])
        else []
      match meta.filename with
      | none => doctorGo exs fix acc (evs ++ evPath) rest
      | some filename =>
        if ¬ exs filename then
          doctorGo exs fix acc (evs ++ evPath ++ [.docMissing name filename]) rest
        else
          let expectedDoc := withExtension expected (extOf filename)
          let evDoc :=
            if filename ≠ expectedDoc then
              .docWrongPath filename expectedDoc ::
                (if fix then [.docMoved filename expectedDoc] else [])
            else []
          doctorGo exs fix (accSetTrue acc filename) (evs ++ evPath ++ evDoc) rest

/-- The doctor pass over the sorted regular files under root. -/
def doctorPass (exs : List Char → Bool) (fix : Bool)
    (entries : List FsEntry) : Except (List Char) (List DoctorEvent) :=
  doctorGo exs fix [] [] entries

/-- A note file that fails to parse. -/
def badEntry : FsEntry :=
  FsEntry.md ("bad.md".data) (.error ("no front matter".data))

/-- A parseable note at `foo.md` whose title derives `Bar.md`: doctor run
on it alone reports the path mismatch. -/
def goodEntry : FsEntry :=
  FsEntry.md ("foo.md".data)
    (.ok (⟨some ("Bar".data), none, none, [], [], [], 0, 0, none, none⟩, []))

/-- Counterexample to C5: the doctor pass on `[badEntry, goodEntry]` hits
the `?` on loading `bad.md` and aborts the whole pass with the parse error
— the remaining paper is neither checked nor reported, although running the
pass on it alone would report its path mismatch.  This contradicts the
claim that a note file failing to parse causes only that paper to be
skipped while the pass continues. -/
theorem doctor_parse_failure_aborts_counterexample :
    doctorPass (fun _ => false) false [badEntry, goodEntry] =
      .error ("no front matter".data) ∧
    doctorPass (fun _ => false) false [goodEntry] =
      .ok [DoctorEvent.noteWrongPath ("foo.md".data) ("Bar.md".data)] :=
  ⟨rfl, rfl⟩

/-- C5 (amended): the reconciliation passes are best-effort for per-paper
name-generation failures — in rename-files, a paper for which every
strategy fails (for example, a missing title) is only reported
(`genFailure`) and skipped, the filesystem is untouched for it, and the
pass continues over all remaining papers — but in the doctor pass a note
file that fails to parse aborts the entire pass with that error rather
than being skipped. -/
theorem reconciliation_skip_and_abort_cases
    (strategies : List (PaperMeta → Except (List Char) (List Char)))
    (detect : List Char → Option (List Char)) (dryRun : Bool) (root : List Char)
    (files : List (List Char)) (p : LoadedPaper) (rest : List LoadedPaper)
    (exs : List Char → Bool) (fix : Bool) (acc : List (List Char × Bool))
    (evs : List DoctorEvent) (name e : List Char) (entries : List FsEntry)
    (h : List.findSome? (fun s => (s p.meta).toOption) strategies = none) :
    renamePass strategies detect dryRun root files (p :: rest) =
      ((renamePass strategies detect dryRun root files rest).1,
        RenameEvent.genFailure ::
          (renamePass strategies detect dryRun root files rest).2) ∧
    doctorGo exs fix acc evs (FsEntry.md name (.error e) :: entries) =
      .error e := by
  constructor
  · simp [renamePass, stepPaper, h]
  · rfl

/-- A loaded paper with no title: every rename strategy fails on it. -/
def titlelessPaper : LoadedPaper := ⟨"x.md".data, emptyMeta, []⟩

/-- Witness for the amended C5 on concrete inputs: a title-less paper is
skipped with a report while the pass continues, and a doctor run hitting a
parse failure aborts. -/
theorem reconciliation_skip_and_abort_cases_witness :
    List.findSome? (fun s => (s titlelessPaper.meta).toOption)
      [strategyRenameTitle] = none ∧
    (renamePass [strategyRenameTitle] (fun _ => none) false [] []
        [titlelessPaper] =
      ((renamePass [strategyRenameTitle] (fun _ => none) false [] [] []).1,
        RenameEvent.genFailure ::
          (renamePass [strategyRenameTitle] (fun _ => none) false [] [] []).2) ∧
    doctorGo (fun _ => false) false [] []
        [FsEntry.md ("bad.md".data) (.error ("no front matter".data))] =
      .error ("no front matter".data)) :=
  ⟨rfl,
    reconciliation_skip_and_abort_cases [strategyRenameTitle] (fun _ => none)
      false [] [] titlelessPaper [] (fun _ => false) false [] []
      ("bad.md".data) ("no front matter".data) [] rfl⟩

/-- Counterexample to C9: when the computed document path equals the
current one, the rename pass neither reports nor executes anything (the
claim says the move is reported but not executed); and when the
destination already exists, the paper's document move is skipped silently,
again with no report. -/
theorem rename_skips_silently_counterexample :
    stepDoc false ["d/a.pdf".data] ("d/a.pdf".data) ("d/a.pdf".data) =
      (["d/a.pdf".data], []) ∧
    stepDoc false ["d/a.pdf".data, "d/b.pdf".data] ("d/a.pdf".data)
        ("d/b.pdf".data) =
      (["d/a.pdf".data, "d/b.pdf".data], []) :=
  ⟨rfl, rfl⟩

/-- C9 (amended): for every paper processed by rename-files whose document
file exists, with the new path computed from the generated name, the
detected extension and the current parent directory: if the computed path
equals the current path nothing is reported or executed; if the
destination already exists the document move is skipped, also without a
report; only otherwise is the move reported, and (except under
`--dry-run`, which only reports) the document file moved and `update`
called to repoint `filename`; the note-file block then runs on the
resulting filesystem. -/
theorem rename_doc_move_cases
    (strategies : List (PaperMeta → Except (List Char) (List Char)))
    (detect : List Char → Option (List Char)) (dryRun : Bool) (root : List Char)
    (files : List (List Char)) (paper : LoadedPaper) (newName fn : List Char)
    (hn : List.findSome? (fun s => (s paper.meta).toOption) strategies =
      some newName)
    (hf : paper.meta.filename = some fn)
    (hex : files.contains (joinPath root fn) = true) :
    (stepPaper strategies detect dryRun root files paper).2 =
      (let path := joinPath root fn
       let newPath := withExtension (joinPath (parentOf path) newName)
         ((detect path).getD (extOf path))
       (if newPath = path then []
        else if files.contains newPath then []
        else RenameEvent.reportDocMove path newPath ::
          (if dryRun then []
           else [RenameEvent.docMove path newPath,
             RenameEvent.docUpdate newPath])))
      ++ (stepNote dryRun
            (stepDoc dryRun files (joinPath root fn)
              (withExtension (joinPath (parentOf (joinPath root fn)) newName)
                ((detect (joinPath root fn)).getD
                  (extOf (joinPath root fn))))).1
            (joinPath root paper.path)
            (withExtension (joinPath root newName) ("md".data))).2 := by
  rw [stepPaper, hn]
  simp only [hf, hex]
  rw [stepDoc]
  by_cases h1 :
      withExtension (joinPath (parentOf (joinPath root fn)) newName)
        ((detect (joinPath root fn)).getD (extOf (joinPath root fn))) =
        joinPath root fn
  · simp [h1, stepDoc]
  · by_cases h2 :
        (withExtension (joinPath (parentOf (joinPath root fn)) newName)
          ((detect (joinPath root fn)).getD (extOf (joinPath root fn)))) ∈ files
    · simp [h1, h2, stepDoc]
    · cases h3 : dryRun <;>
        simp_all [stepDoc]

/-- Witness for the amended C9: a paper titled `T` at note path `T.md`
with document `doc.pdf` under root `r`; the computed path `r/T.pdf`
differs from `r/doc.pdf` and is free, so the move is reported, executed
and followed by the `update`. -/
theorem rename_doc_move_cases_witness :
    List.findSome?
        (fun s => (s (⟨"T.md".data,
          ⟨some ("T".data), none, some ("doc.pdf".data), [], [], [], 0, 0,
            none, none⟩, []⟩ : LoadedPaper).meta).toOption)
        [strategyRenameTitle] = some ("T".data) ∧
    (⟨"T.md".data,
      ⟨some ("T".data), none, some ("doc.pdf".data), [], [], [], 0, 0, none,
        none⟩, []⟩ : LoadedPaper).meta.filename = some ("doc.pdf".data) ∧
    (["r/doc.pdf".data].contains (joinPath ("r".data) ("doc.pdf".data))) = true ∧
    (stepPaper [strategyRenameTitle] (fun _ => none) false ("r".data)
        ["r/doc.pdf".data]
        ⟨"T.md".data,
          ⟨some ("T".data), none, some ("doc.pdf".data), [], [], [], 0, 0,
            none, none⟩, []⟩).2 =
      [RenameEvent.reportDocMove ("r/doc.pdf".data) ("r/T.pdf".data),
        RenameEvent.docMove ("r/doc.pdf".data) ("r/T.pdf".data),
        RenameEvent.docUpdate ("r/T.pdf".data)] :=
  ⟨rfl, rfl, rfl,
    Eq.trans
      (rename_doc_move_cases [strategyRenameTitle] (fun _ => none) false
        ("r".data) ["r/doc.pdf".data]
        ⟨"T.md".data,
          ⟨some ("T".data), none, some ("doc.pdf".data), [], [], [], 0, 0,
            none, none⟩, []⟩ ("T".data) ("doc.pdf".data) rfl rfl rfl)
      (by decide)⟩

end Papers
